import Mathlib

/-!
Verification of the GraphQL tool layer: `langchain/utilities/graphql.py`
(`GraphQLAPIWrapper`) and `langchain/tools/graphql/tool.py` (the four tool
adapters), together with the prompt constant from
`langchain/tools/graphql/prompt.py`.

The Python code is shallowly embedded:

* JSON values (the structured results returned by `gql`'s `execute` and the
  dictionaries built by `get_type_info`) become the inductive type `Json`
  below.  Numbers are modelled as integers; the claims under scrutiny never
  involve floating point.
* `json.dumps(x, indent=2)` (Python defaults: `ensure_ascii=True`, separators
  `(",", ": ")` when an indent is given) becomes `jsonDumps`.
* `json.loads` -- the "parsing" half of the round-trip property the spec
  states -- is not part of this repository; `parseJson` below is a reference
  JSON reader implementing the standard grammar restricted to the values
  `Json` can represent (integers rather than arbitrary numbers, and no lone
  surrogates, which Lean's `Char` cannot hold).
* The introspection responses consumed by `get_type_names` / `get_type_info`
  become the record types `TypeNameEntry`, `SchemaTypeDef`, `FieldDef`,
  `FieldTypeRef`, `OfTypeRef`.  An `Option` field models presence/absence of
  the corresponding JSON piece: `SchemaTypeDef.fields = none` models a type
  dictionary without a `'fields'` key (the case the code tests with
  `'fields' in type_`), and `FieldTypeRef.name = none` models `"name": null`.
* The external GraphQL transport is out of scope (the spec treats it as a
  black box), so every wrapper/tool function takes the server's structured
  response as an explicit argument: `GraphQLAPIWrapper.run result` is "what
  `run` returns when `_execute_query` produced `result`".
-/

/-! ## JSON values -/

/-- A JSON value, as produced by the `gql` client and consumed by
`json.dumps`.  `obj` keeps members as an ordered association list, matching
Python dict insertion order. -/
inductive Json where
  | null : Json
  | bool (b : Bool) : Json
  | num (n : Int) : Json
  | str (s : String) : Json
  | arr (elems : List Json) : Json
  | obj (members : List (String × Json)) : Json
deriving Repr

/-- The `{` character, kept out of literals for hygiene. -/
def lbrace : Char := Char.ofNat 123

/-- The `}` character. -/
def rbrace : Char := Char.ofNat 125

/-! ## `json.dumps(.., indent=2)` -/

/-- Lowercase hexadecimal digit, as used by Python's `\uXXXX` escapes. -/
def hexDigitChar (d : Nat) : Char :=
  if d < 10 then Char.ofNat (48 + d) else Char.ofNat (87 + d)

/-- Four-digit lowercase hex rendering of `n < 0x10000`. -/
def hex4 (n : Nat) : List Char :=
  [hexDigitChar (n / 4096 % 16), hexDigitChar (n / 256 % 16),
   hexDigitChar (n / 16 % 16), hexDigitChar (n % 16)]

/-- How Python's `json.dumps` with `ensure_ascii=True` renders one character
inside a string literal: the named escapes, `\u00xx` for other control
characters, the character itself for printable ASCII, and `\uxxxx`
(a surrogate pair beyond the BMP) for everything non-ASCII. -/
def escChar (c : Char) : List Char :=
  if c = '"' then ['\\', '"']
  else if c = '\\' then ['\\', '\\']
  else if c = '\n' then ['\\', 'n']
  else if c = '\t' then ['\\', 't']
  else if c = '\r' then ['\\', 'r']
  else if c = Char.ofNat 8 then ['\\', 'b']
  else if c = Char.ofNat 12 then ['\\', 'f']
  else if c.toNat < 32 then '\\' :: 'u' :: hex4 c.toNat
  else if c.toNat < 127 then [c]
  else if c.toNat < 65536 then '\\' :: 'u' :: hex4 c.toNat
  else '\\' :: 'u' :: hex4 (55296 + (c.toNat - 65536) / 1024) ++
       '\\' :: 'u' :: hex4 (56320 + (c.toNat - 65536) % 1024)

/-- Escape a whole string body, character by character. -/
def escapeChars : List Char → List Char
  | [] => []
  | c :: cs => escChar c ++ escapeChars cs

/-- A JSON string literal: `"..."` with body escaped. -/
def dumpStr (s : String) : List Char :=
  '"' :: escapeChars s.data ++ ['"']

/-- Worker for `natDigits`: peel decimal digits into an accumulator.  The
fuel only serves structural recursion; any amount above the digit count acts
the same. -/
def natDigitsAux : Nat → Nat → List Char → List Char
  | 0, _, acc => acc
  | fuel + 1, n, acc =>
    if n < 10 then Char.ofNat (48 + n) :: acc
    else natDigitsAux fuel (n / 10) (Char.ofNat (48 + n % 10) :: acc)

/-- Decimal digits of a natural number, most significant first. -/
def natDigits (n : Nat) : List Char := natDigitsAux (n + 1) n []

/-- Python's rendering of an `int`. -/
def intDigits (n : Int) : List Char :=
  if n < 0 then '-' :: natDigits (-n).toNat else natDigits n.toNat

/-- `k` spaces. -/
def spaces (k : Nat) : List Char := List.replicate k ' '

mutual

/-- `json.dumps(v, indent=2)` rendered at nesting level `d` (so children are
indented by `2*(d+1)` spaces).  Empty containers stay on one line, exactly as
in Python. -/
def dumpVal : Nat → Json → List Char
  | _, .null => ['n', 'u', 'l', 'l']
  | _, .bool true => ['t', 'r', 'u', 'e']
  | _, .bool false => ['f', 'a', 'l', 's', 'e']
  | _, .num n => intDigits n
  | _, .str s => dumpStr s
  | _, .arr [] => ['[', ']']
  | d, .arr (x :: xs) =>
      '[' :: '\n' :: (spaces (2 * (d + 1)) ++ dumpVal (d + 1) x ++
        dumpItems (d + 1) xs ++ '\n' :: (spaces (2 * d) ++ [']']))
  | _, .obj [] => [lbrace, rbrace]
  | d, .obj (m :: ms) =>
      lbrace :: '\n' :: (spaces (2 * (d + 1)) ++ dumpMember (d + 1) m ++
        dumpMembers (d + 1) ms ++ '\n' :: (spaces (2 * d) ++ [rbrace]))

/-- The tail items of a non-empty array: `,\n` + indentation before each. -/
def dumpItems : Nat → List Json → List Char
  | _, [] => []
  | d, x :: xs => ',' :: '\n' :: (spaces (2 * d) ++ dumpVal d x ++ dumpItems d xs)

/-- One `"key": value` member. -/
def dumpMember : Nat → String × Json → List Char
  | d, (k, v) => dumpStr k ++ ':' :: ' ' :: dumpVal d v

/-- The tail members of a non-empty object. -/
def dumpMembers : Nat → List (String × Json) → List Char
  | _, [] => []
  | d, m :: ms => ',' :: '\n' :: (spaces (2 * d) ++ dumpMember d m ++ dumpMembers d ms)

end

/-- The embedding of `json.dumps(v, indent=2)`. -/
def jsonDumps (v : Json) : String := String.mk (dumpVal 0 v)

/-! ## A reference JSON reader (the parse half of the spec's round-trip) -/

/-- Value of one hexadecimal digit character, either case. -/
def hexVal (c : Char) : Option Nat :=
  if 48 ≤ c.toNat ∧ c.toNat ≤ 57 then some (c.toNat - 48)
  else if 97 ≤ c.toNat ∧ c.toNat ≤ 102 then some (c.toNat - 87)
  else if 65 ≤ c.toNat ∧ c.toNat ≤ 70 then some (c.toNat - 55)
  else none

/-- Value of a four-digit hexadecimal escape body. -/
def hexQuad (a b c d : Char) : Option Nat :=
  match hexVal a, hexVal b, hexVal c, hexVal d with
  | some x, some y, some z, some w => some (4096 * x + 256 * y + 16 * z + w)
  | _, _, _, _ => none

/-- The single-character JSON escapes. -/
def simpleEsc (e : Char) : Option Char :=
  if e = '"' then some '"'
  else if e = '\\' then some '\\'
  else if e = '/' then some '/'
  else if e = 'n' then some '\n'
  else if e = 't' then some '\t'
  else if e = 'r' then some '\r'
  else if e = 'b' then some (Char.ofNat 8)
  else if e = 'f' then some (Char.ofNat 12)
  else none

/-- Read four hexadecimal digits. -/
def readHex4 : List Char → Option (Nat × List Char)
  | a :: b :: c :: d :: r =>
    match hexQuad a b c d with
    | some n => some (n, r)
    | none => none
  | _ => none

/-- Decode one `\uXXXX` escape, positioned right after the `\u`:
recombines surrogate pairs (consuming a second `\uXXXX`), rejects lone
surrogates (which Lean's `Char` cannot hold). -/
def readUChar (s : List Char) : Option (Char × List Char) :=
  match readHex4 s with
  | none => none
  | some (n, r3) =>
    if 55296 ≤ n ∧ n < 56320 then
      match r3 with
      | b1 :: u1 :: rr =>
        if b1 = '\\' ∧ u1 = 'u' then
          match readHex4 rr with
          | some (m, r4) =>
            if 56320 ≤ m ∧ m < 57344 then
              some (Char.ofNat (65536 + (n - 55296) * 1024 + (m - 56320)), r4)
            else none
          | none => none
        else none
      | _ => none
    else if 56320 ≤ n ∧ n < 57344 then none
    else some (Char.ofNat n, r3)

/-- Read a JSON string body up to and including the closing quote, returning
the decoded characters and the rest of the input.  Escapes are decoded; raw
control characters are rejected as in strict-mode `json.loads`.  `fuel`
bounds the number of decoded characters; callers pass one more than the
input length, which one decoded character per consumed input character can
never exhaust. -/
def readStringBody : Nat → List Char → Option (List Char × List Char)
  | 0, _ => none
  | _, [] => none
  | fuel + 1, c :: r =>
    if c = '"' then some ([], r)
    else if c = '\\' then
      match r with
      | [] => none
      | e :: r2 =>
        if e = 'u' then
          match readUChar r2 with
          | some (uc, r3) =>
            match readStringBody fuel r3 with
            | some (cs, rr) => some (uc :: cs, rr)
            | none => none
          | none => none
        else
          match simpleEsc e with
          | some ec =>
            match readStringBody fuel r2 with
            | some (cs, rr) => some (ec :: cs, rr)
            | none => none
          | none => none
    else if c.toNat < 32 then none
    else
      match readStringBody fuel r with
      | some (cs, rr) => some (c :: cs, rr)
      | none => none

/-- Accumulate a run of decimal digits. -/
def readDigits (acc : Nat) : List Char → Nat × List Char
  | [] => (acc, [])
  | c :: r => if c.isDigit then readDigits (acc * 10 + (c.toNat - 48)) r else (acc, c :: r)

/-- Is this one of the JSON whitespace characters? -/
def isWsChar (c : Char) : Bool :=
  c = ' ' || c = '\n' || c = '\t' || c = '\r'

/-- Drop leading JSON whitespace. -/
def skipWs : List Char → List Char
  | [] => []
  | c :: r => if isWsChar c then skipWs r else c :: r

mutual

/-- Read one JSON value.  `fuel` bounds the recursion depth; `parseJson`
supplies more fuel than any input can consume. -/
def readVal : Nat → List Char → Option (Json × List Char)
  | 0, _ => none
  | fuel + 1, s =>
    match skipWs s with
    | [] => none
    | c :: r =>
      if c = 'n' then
        if r.take 3 = ['u', 'l', 'l'] then some (.null, r.drop 3) else none
      else if c = 't' then
        if r.take 3 = ['r', 'u', 'e'] then some (.bool true, r.drop 3) else none
      else if c = 'f' then
        if r.take 4 = ['a', 'l', 's', 'e'] then some (.bool false, r.drop 4) else none
      else if c = '"' then
        match readStringBody (r.length + 1) r with
        | some (cs, r2) => some (.str (String.mk cs), r2)
        | none => none
      else if c = '-' then
        match r with
        | c2 :: r2 =>
          if c2.isDigit then
            let p := readDigits 0 (c2 :: r2)
            some (.num (-(p.1 : Int)), p.2)
          else none
        | [] => none
      else if c = '[' then
        match skipWs r with
        | [] => none
        | c2 :: r2 =>
          if c2 = ']' then some (.arr [], r2)
          else
            match readItems fuel (c2 :: r2) with
            | some (xs, r3) => some (.arr xs, r3)
            | none => none
      else if c = lbrace then
        match skipWs r with
        | [] => none
        | c2 :: r2 =>
          if c2 = rbrace then some (.obj [], r2)
          else
            match readMembers fuel (c2 :: r2) with
            | some (ms, r3) => some (.obj ms, r3)
            | none => none
      else if c.isDigit then
        let p := readDigits 0 (c :: r)
        some (.num (p.1 : Int), p.2)
      else none

/-- Read the comma-separated items of a non-empty array, consuming the
closing bracket. -/
def readItems : Nat → List Char → Option (List Json × List Char)
  | 0, _ => none
  | fuel + 1, s =>
    match readVal fuel s with
    | none => none
    | some (v, r) =>
      match skipWs r with
      | [] => none
      | c :: r2 =>
        if c = ',' then
          match readItems fuel r2 with
          | some (vs, r3) => some (v :: vs, r3)
          | none => none
        else if c = ']' then some ([v], r2)
        else none

/-- Read the comma-separated members of a non-empty object, consuming the
closing brace. -/
def readMembers : Nat → List Char → Option (List (String × Json) × List Char)
  | 0, _ => none
  | fuel + 1, s =>
    match skipWs s with
    | [] => none
    | c :: r =>
      if c = '"' then
        match readStringBody (r.length + 1) r with
        | none => none
        | some (kcs, r2) =>
          match skipWs r2 with
          | [] => none
          | c2 :: r3 =>
            if c2 = ':' then
              match readVal fuel r3 with
              | none => none
              | some (v, r4) =>
                match skipWs r4 with
                | [] => none
                | c3 :: r5 =>
                  if c3 = ',' then
                    match readMembers fuel r5 with
                    | some (ms, r6) => some ((String.mk kcs, v) :: ms, r6)
                    | none => none
                  else if c3 = rbrace then some ([(String.mk kcs, v)], r5)
                  else none
            else none
      else none

end

/-- Parse an entire JSON document: one value, with nothing but whitespace
after it (as `json.loads` requires). -/
def parseJson (s : String) : Option Json :=
  match readVal (s.length + 1) s.data with
  | some (v, r) => if skipWs r = [] then some v else none
  | none => none

/-! ## `GraphQLAPIWrapper` (`langchain/utilities/graphql.py`) -/

/-- One entry of `result['__schema']['types']` for the introspection query
issued by `get_type_names`, which requests only `name`. -/
structure TypeNameEntry where
  name : String
deriving Repr, DecidableEq

/-- The `ofType { name kind }` sub-object of the richer introspection query.
`name = none` models `"name": null`. -/
structure OfTypeRef where
  name : Option String
  kind : Option String
deriving Repr, DecidableEq

/-- The `type { name kind ofType { ... } }` sub-object of a field.
`ofType = none` models `"ofType": null`. -/
structure FieldTypeRef where
  name : Option String
  kind : Option String
  ofType : Option OfTypeRef
deriving Repr, DecidableEq

/-- One entry of a type's `fields` list. -/
structure FieldDef where
  name : String
  type : FieldTypeRef
deriving Repr, DecidableEq

/-- One entry of `result['__schema']['types']` for the richer introspection
query issued by `get_type_info`.  `fields = none` models a type dictionary
with no `'fields'` key at all (the situation the code tests with
`'fields' in type_`); a present-but-`null` `fields` value is not
representable here -- on such input the Python code would raise `TypeError`
while iterating, which no claim exercises. -/
structure SchemaTypeDef where
  name : String
  kind : String
  fields : Option (List FieldDef)
deriving Repr, DecidableEq

/-- One `{'name': ..., 'type': ...}` dictionary built by the comprehension in
`get_type_info`. -/
structure SummaryField where
  name : String
  type : Option String
deriving Repr, DecidableEq

/-- The `{'kind': ..., 'fields': [...]}` dictionary `get_type_info` stores
per requested type. -/
structure TypeSummary where
  kind : String
  fields : List SummaryField
deriving Repr, DecidableEq

/-- Python truthiness of `field['type']['name']` (a `None`-or-`str` value):
`None` and the empty string are falsy. -/
def pyTruthyStr : Option String → Bool
  | none => false
  | some s => s != ""

/-- The field-type expression in `get_type_info`:
`field['type']['name'] or (field['type']['ofType']['name'] if field['type']['ofType'] else None)`. -/
def resolveFieldType (t : FieldTypeRef) : Option String :=
  if pyTruthyStr t.name then t.name
  else
    match t.ofType with
    | some o => o.name
    | none => none

/-- The value dictionary `get_type_info` builds for one schema type:
`{'kind': type_['kind'], 'fields': [...] if 'fields' in type_ else []}`. -/
def summarizeType (t : SchemaTypeDef) : TypeSummary :=
  { kind := t.kind
    fields :=
      match t.fields with
      | some fs => fs.map fun f => { name := f.name, type := resolveFieldType f.type }
      | none => [] }

/-- Assignment `d[k] = v` on a Python dict modelled as an ordered association
list: an existing key keeps its position and gets the new value, a fresh key
is appended. -/
def pyDictInsert {α : Type} : List (String × α) → String → α → List (String × α)
  | [], k, v => [(k, v)]
  | (k1, v1) :: rest, k, v =>
    if k1 = k then (k, v) :: rest else (k1, v1) :: pyDictInsert rest k v

/-- `GraphQLAPIWrapper.get_type_names`, applied to the structured response of
its fixed introspection query: extract `name` from every entry of
`__schema.types`, in order. -/
def GraphQLAPIWrapper.get_type_names (types : List TypeNameEntry) : List String :=
  types.map TypeNameEntry.name

/-- `GraphQLAPIWrapper.get_type_info`, applied to the structured response of
its fixed introspection query: walk the server-returned types in order and,
for each whose name occurs in `type_names`, store its summary under its
name. -/
def GraphQLAPIWrapper.get_type_info (type_names : List String)
    (schemaTypes : List SchemaTypeDef) : List (String × TypeSummary) :=
  schemaTypes.foldl
    (fun acc t =>
      if t.name ∈ type_names then pyDictInsert acc t.name (summarizeType t) else acc)
    []

/-- `GraphQLAPIWrapper.run`: `json.dumps(self._execute_query(query), indent=2)`,
as a function of the structured result the transport returned. -/
def GraphQLAPIWrapper.run (result : Json) : String :=
  jsonDumps result

/-! ## Tool adapters (`langchain/tools/graphql/tool.py`) -/

/-- The Python exceptions the tool layer raises. -/
inductive PyError where
  | notImplementedError (msg : String)
  | valueError (msg : String)
deriving Repr, DecidableEq

/-- The module-level constant `NOT_IMPLEMENTED_ASYNC`. -/
def NOT_IMPLEMENTED_ASYNC : String := "This tool does not support async"

/-- `QueryGraphQLTool._run`: re-serializes the wrapper's already-serialized
output (`json.dumps(self.graphql_wrapper.run(tool_input), indent=2)` where
`run` itself returned a JSON text), as a function of the structured result
the transport returned for `tool_input`. -/
def QueryGraphQLTool.run (result : Json) : String :=
  jsonDumps (.str (GraphQLAPIWrapper.run result))

/-- `QueryGraphQLTool._arun`: always raises. -/
def QueryGraphQLTool.arun (tool_input : String) : Except PyError String :=
  .error (.notImplementedError "GraphQLAPIWrapper does not support async")

/-- `ListTablesGraphQLTool._run`: `", ".join(self.graphql_wrapper.get_type_names())`. -/
def ListTablesGraphQLTool.run (types : List TypeNameEntry) : String :=
  String.intercalate ", " (GraphQLAPIWrapper.get_type_names types)

/-- `ListTablesGraphQLTool._arun`: always raises. -/
def ListTablesGraphQLTool.arun (tool_input : String) : Except PyError String :=
  .error (.notImplementedError NOT_IMPLEMENTED_ASYNC)

/-- Python's `str.split(",")`: split at every comma, keeping empty pieces. -/
def splitCommaChars : List Char → List Char → List (List Char)
  | [], cur => [cur.reverse]
  | c :: rest, cur =>
    if c = ',' then cur.reverse :: splitCommaChars rest [] else splitCommaChars rest (c :: cur)

/-- The ASCII whitespace stripped by Python's `str.strip()` (further Unicode
whitespace is outside the model; the adapter inputs of interest are ASCII). -/
def isStripWs (c : Char) : Bool :=
  c = ' ' || c = '\t' || c = '\n' || c = '\r' || c = Char.ofNat 11 || c = Char.ofNat 12

/-- Python's `str.strip()`: drop leading and trailing whitespace. -/
def pyStrip (cs : List Char) : List Char :=
  ((cs.dropWhile isStripWs).reverse.dropWhile isStripWs).reverse

/-- `[type_name.strip() for type_name in type_names.split(",")]`. -/
def splitAndStrip (type_names : String) : List String :=
  (splitCommaChars type_names.data []).map fun cs => String.mk (pyStrip cs)

/-- The JSON value `json.dumps` sees for one field-summary dictionary. -/
def encodeSummaryField (f : SummaryField) : Json :=
  .obj [("name", .str f.name),
        ("type", match f.type with | some t => .str t | none => .null)]

/-- The JSON value `json.dumps` sees for one type summary. -/
def encodeTypeSummary (s : TypeSummary) : Json :=
  .obj [("kind", .str s.kind), ("fields", .arr (s.fields.map encodeSummaryField))]

/-- The JSON value `json.dumps` sees for the whole `get_type_info` result. -/
def encodeTypeInfo (m : List (String × TypeSummary)) : Json :=
  .obj (m.map fun p => (p.1, encodeTypeSummary p.2))

/-- `SchemaGraphQLTool._run`: split the input on commas, strip each piece,
look the names up, and pretty-print the resulting mapping; as a function of
the structured introspection response. -/
def SchemaGraphQLTool.run (type_names : String) (schemaTypes : List SchemaTypeDef) : String :=
  jsonDumps (encodeTypeInfo
    (GraphQLAPIWrapper.get_type_info (splitAndStrip type_names) schemaTypes))

/-- `SchemaGraphQLTool._arun`: always raises. -/
def SchemaGraphQLTool.arun (type_name : String) : Except PyError String :=
  .error (.notImplementedError NOT_IMPLEMENTED_ASYNC)

/-! ## `QueryCheckerTool` construction (`initialize_llm_chain` validator) -/

/-- The `QUERY_CHECKER` template from `langchain/tools/graphql/prompt.py`. -/
def QUERY_CHECKER : String :=
  "\n{query}\nDouble check the GraphQL query above for common mistakes, including:\n- Properly structuring query and mutation requests\n- Correct use of variables and their types\n- Ensuring fields and nested fields are properly used\n- Use of arguments with fields where necessary\n- Correct use of aliases if used\n- Correct use of fragments, inline fragments and directives\n- Ensuring operation names are unique where used\n- Proper handling of error states and null values\n\nIf there are any of the above mistakes, rewrite the query. If there are no mistakes, just reproduce the original query.\n"

/-- A `PromptTemplate`, reduced to the parts the validator inspects. -/
structure PromptTemplate where
  template : String
  input_variables : List String
deriving Repr, DecidableEq

/-- An `LLMChain`, reduced to the part the validator inspects. -/
structure LLMChain where
  prompt : PromptTemplate
deriving Repr, DecidableEq

/-- The error message of the `ValueError` raised by the validator. -/
def LLM_CHAIN_VARS_ERROR : String :=
  "LLM chain for QueryCheckerTool must have input variables [\x27query\x27]"

/-- The `initialize_llm_chain` pre-root-validator of `QueryCheckerTool`:
build a default chain over `QUERY_CHECKER` when none is supplied, then
reject any chain whose prompt variables are not exactly `['query']`.  (The
underscore-free name stands in for the Python validator's name.) -/
def QueryCheckerTool.checkLLMChain (supplied : Option LLMChain) : Except PyError LLMChain :=
  let chain :=
    match supplied with
    | some c => c
    | none => { prompt := { template := QUERY_CHECKER, input_variables := ["query"] } }
  if chain.prompt.input_variables ≠ ["query"] then
    .error (.valueError LLM_CHAIN_VARS_ERROR)
  else
    .ok chain

/-! ## Auxiliary definitions for the proofs and claims -/

/-- Nothing ahead that could extend a decimal-digit run. -/
def digitSafe : List Char → Prop
  | [] => True
  | c :: _ => c.isDigit = false

mutual

/-- Recursion budget of the reader on a printed value. -/
def jsize : Json → Nat
  | .null => 1
  | .bool _ => 1
  | .num _ => 1
  | .str _ => 1
  | .arr xs => 1 + jsizeItems xs
  | .obj ms => 1 + jsizeMembers ms

def jsizeItems : List Json → Nat
  | [] => 1
  | x :: xs => 1 + jsize x + jsizeItems xs

def jsizeMembers : List (String × Json) → Nat
  | [] => 1
  | m :: ms => 1 + jsize m.2 + jsizeMembers ms

end

/-- The field-type rule exactly as the spec states it (claim C2): prefer the
direct name whenever it is PRESENT (non-null), else the wrapped name, else
null.  Kept for comparison against the code's `resolveFieldType`. -/
def specPresenceFieldType (t : FieldTypeRef) : Option String :=
  match t.name with
  | some s => some s
  | none =>
    match t.ofType with
    | some o => o.name
    | none => none

/-- The amended field-type rule: prefer the direct name only when it is
present AND non-empty, else fall back to the wrapped name, else null. -/
def amendedFieldType (t : FieldTypeRef) : Option String :=
  match t.name with
  | some s =>
    if s = "" then
      match t.ofType with
      | some o => o.name
      | none => none
    else some s
  | none =>
    match t.ofType with
    | some o => o.name
    | none => none

/-- Concrete structured result used to refute claim C1 as stated. -/
def c1_input : Json := .obj [("a", .num 1)]

/-- The field-type reference used to refute claim C2 as stated: direct name
present but empty, wrapped name `"String"`. -/
def c2_fieldtype : FieldTypeRef :=
  { name := some "", kind := some "SCALAR",
    ofType := some { name := some "String", kind := some "SCALAR" } }

/-- The one-type schema around `c2_fieldtype`. -/
def c2_schema : List SchemaTypeDef :=
  [{ name := "T", kind := "OBJECT", fields := some [{ name := "f", type := c2_fieldtype }] }]

/-- Schema used by the C5 witness. -/
def c5_schema : List SchemaTypeDef :=
  [{ name := "User", kind := "OBJECT", fields := some [] }]

/-! ## Character and escape lemmas -/

theorem toNat_ofNat_valid {n : Nat} (h : n.isValidChar) : (Char.ofNat n).toNat = n := by
  simp only [Char.ofNat, dif_pos h, Char.ofNatAux, Char.toNat]
  rfl

theorem char_not_surrogate (c : Char) : c.toNat < 55296 ∨ (57343 < c.toNat ∧ c.toNat < 1114112) :=
  c.valid

theorem hexVal_hexDigitChar {d : Nat} (h : d < 16) : hexVal (hexDigitChar d) = some d := by
  unfold hexVal hexDigitChar
  interval_cases d <;> decide

theorem hexQuad_hex4 {n : Nat} (h : n < 65536) :
    hexQuad (hexDigitChar (n / 4096 % 16)) (hexDigitChar (n / 256 % 16))
      (hexDigitChar (n / 16 % 16)) (hexDigitChar (n % 16)) = some n := by
  rw [hexQuad, hexVal_hexDigitChar (show n / 4096 % 16 < 16 by omega),
    hexVal_hexDigitChar (show n / 256 % 16 < 16 by omega),
    hexVal_hexDigitChar (show n / 16 % 16 < 16 by omega),
    hexVal_hexDigitChar (show n % 16 < 16 by omega)]
  exact congrArg some (by omega)


/-! ## String-literal round-trip -/

theorem readHex4_hex4 {n : Nat} (h : n < 65536) (r : List Char) :
    readHex4 (hex4 n ++ r) = some (n, r) := by
  simp only [hex4, List.cons_append, List.nil_append, readHex4]
  rw [hexQuad_hex4 h]

theorem readUChar_bmp {n : Nat} (h : n < 65536) (hs1 : ¬(55296 ≤ n ∧ n < 56320))
    (hs2 : ¬(56320 ≤ n ∧ n < 57344)) (r : List Char) :
    readUChar (hex4 n ++ r) = some (Char.ofNat n, r) := by
  rw [readUChar, readHex4_hex4 h]
  dsimp only
  rw [if_neg hs1, if_neg hs2]

theorem readUChar_pair {t : Nat} (h1 : 65536 ≤ t) (h2 : t < 1114112) (r : List Char) :
    readUChar (hex4 (55296 + (t - 65536) / 1024) ++ '\\' :: 'u' :: (hex4 (56320 + (t - 65536) % 1024) ++ r)) =
      some (Char.ofNat t, r) := by
  rw [readUChar, readHex4_hex4 (by omega)]
  dsimp only
  rw [if_pos (by omega)]
  rw [if_pos (by exact ⟨rfl, rfl⟩)]
  rw [readHex4_hex4 (by omega)]
  dsimp only
  rw [if_pos (by omega)]
  have harith : 65536 + (55296 + (t - 65536) / 1024 - 55296) * 1024 + (56320 + (t - 65536) % 1024 - 56320) = t := by
    omega
  rw [harith]

theorem readStringBody_quote (fuel : Nat) (r : List Char) :
    readStringBody (fuel + 1) ('"' :: r) = some ([], r) := by
  rw [readStringBody.eq_def]
  simp

theorem readStringBody_simpleEsc (e ec : Char) (hse : simpleEsc e = some ec) (he : ¬e = 'u')
    (fuel : Nat) (r : List Char) :
    readStringBody (fuel + 1) ('\\' :: e :: r) =
      (match readStringBody fuel r with
       | some (cs, rr) => some (ec :: cs, rr)
       | none => none) := by
  rw [readStringBody, if_neg (by decide), if_pos rfl, if_neg he, hse]

theorem readStringBody_uesc (fuel : Nat) (r : List Char) :
    readStringBody (fuel + 1) ('\\' :: 'u' :: r) =
      (match readUChar r with
       | some p =>
         match readStringBody fuel p.2 with
         | some (cs, rr) => some (p.1 :: cs, rr)
         | none => none
       | none => none) := by
  rw [readStringBody, if_neg (by decide), if_pos rfl, if_pos rfl]
  rcases h : readUChar r with _ | ⟨uc, r3⟩ <;> rfl

theorem readStringBody_plain (c : Char) (h1 : ¬c = '"') (h2 : ¬c = '\\') (h3 : ¬c.toNat < 32)
    (fuel : Nat) (r : List Char) :
    readStringBody (fuel + 1) (c :: r) =
      (match readStringBody fuel r with
       | some (cs, rr) => some (c :: cs, rr)
       | none => none) := by
  rw [readStringBody.eq_def]
  dsimp only
  rw [if_neg h1, if_neg h2, if_neg h3]

theorem readStringBody_escChar (c : Char) (tail : List Char) (fuel : Nat) :
    readStringBody (fuel + 1) (escChar c ++ tail) =
      (match readStringBody fuel tail with
       | some (cs, rr) => some (c :: cs, rr)
       | none => none) := by
  by_cases hq : c = '"'
  · subst hq
    rw [show escChar '"' = ['\\', '"'] from rfl, List.cons_append, List.cons_append,
      List.nil_append]
    exact readStringBody_simpleEsc '"' '"' (by decide) (by decide) fuel tail
  by_cases hb : c = '\\'
  · subst hb
    rw [show escChar '\\' = ['\\', '\\'] from rfl, List.cons_append, List.cons_append,
      List.nil_append]
    exact readStringBody_simpleEsc '\\' '\\' (by decide) (by decide) fuel tail
  by_cases hn : c = '\n'
  · subst hn
    rw [show escChar '\n' = ['\\', 'n'] from rfl, List.cons_append, List.cons_append,
      List.nil_append]
    exact readStringBody_simpleEsc 'n' '\n' (by decide) (by decide) fuel tail
  by_cases ht : c = '\t'
  · subst ht
    rw [show escChar '\t' = ['\\', 't'] from rfl, List.cons_append, List.cons_append,
      List.nil_append]
    exact readStringBody_simpleEsc 't' '\t' (by decide) (by decide) fuel tail
  by_cases hr : c = '\r'
  · subst hr
    rw [show escChar '\r' = ['\\', 'r'] from rfl, List.cons_append, List.cons_append,
      List.nil_append]
    exact readStringBody_simpleEsc 'r' '\r' (by decide) (by decide) fuel tail
  by_cases h8 : c = Char.ofNat 8
  · subst h8
    rw [show escChar (Char.ofNat 8) = ['\\', 'b'] from rfl, List.cons_append, List.cons_append,
      List.nil_append]
    exact readStringBody_simpleEsc 'b' (Char.ofNat 8) (by decide) (by decide) fuel tail
  by_cases h12 : c = Char.ofNat 12
  · subst h12
    rw [show escChar (Char.ofNat 12) = ['\\', 'f'] from rfl, List.cons_append, List.cons_append,
      List.nil_append]
    exact readStringBody_simpleEsc 'f' (Char.ofNat 12) (by decide) (by decide) fuel tail
  rw [escChar, if_neg hq, if_neg hb, if_neg hn, if_neg ht, if_neg hr, if_neg h8, if_neg h12]
  by_cases hc32 : c.toNat < 32
  · rw [if_pos hc32, List.cons_append, List.cons_append, readStringBody_uesc,
      readUChar_bmp (by omega) (by omega) (by omega), Char.ofNat_toNat]
  rw [if_neg hc32]
  by_cases hp : c.toNat < 127
  · rw [if_pos hp, List.cons_append, List.nil_append]
    exact readStringBody_plain c hq hb (by omega) fuel tail
  rw [if_neg hp]
  by_cases hbmp : c.toNat < 65536
  · have hv := char_not_surrogate c
    rw [if_pos hbmp, List.cons_append, List.cons_append, readStringBody_uesc,
      readUChar_bmp (by omega) (by omega) (by omega), Char.ofNat_toNat]
  · have hv := char_not_surrogate c
    have hlt : c.toNat < 1114112 := by rcases hv with h | ⟨_, h⟩ <;> omega
    rw [if_neg hbmp, List.append_assoc, List.cons_append, List.cons_append, List.cons_append,
      List.cons_append, readStringBody_uesc, readUChar_pair (by omega) hlt,
      Char.ofNat_toNat]

theorem readStringBody_escapeChars (cs : List Char) :
    ∀ (fuel : Nat), cs.length < fuel → ∀ (rest : List Char),
      readStringBody fuel (escapeChars cs ++ '"' :: rest) = some (cs, rest) := by
  induction cs with
  | nil =>
    intro fuel h rest
    obtain ⟨f, rfl⟩ : ∃ f, fuel = f + 1 := ⟨fuel - 1, by omega⟩
    rw [escapeChars, List.nil_append]
    exact readStringBody_quote f rest
  | cons c cs ih =>
    intro fuel h rest
    obtain ⟨f, rfl⟩ : ∃ f, fuel = f + 1 := ⟨fuel - 1, by omega⟩
    rw [escapeChars, List.append_assoc, readStringBody_escChar,
      ih f (by simpa using Nat.lt_of_succ_lt_succ h) rest]

set_option maxHeartbeats 1000000 in
theorem one_le_length_escChar (c : Char) : 1 ≤ (escChar c).length := by
  rw [escChar]; split_ifs <;> simp [hex4]

theorem length_le_escapeChars (cs : List Char) : cs.length ≤ (escapeChars cs).length := by
  induction cs with
  | nil => simp [escapeChars]
  | cons c cs ih =>
    rw [escapeChars, List.length_append, List.length_cons]
    have := one_le_length_escChar c
    omega

/-! ## Digits, whitespace and head-character lemmas -/

theorem natDigitsAux_acc :
    ∀ (fuel n : Nat) (acc : List Char),
      natDigitsAux fuel n acc = natDigitsAux fuel n [] ++ acc := by
  intro fuel
  induction fuel with
  | zero => intro n acc; rfl
  | succ fuel ih =>
    intro n acc
    rw [natDigitsAux, natDigitsAux]
    split
    · rfl
    · rw [ih (n / 10) (Char.ofNat (48 + n % 10) :: acc),
        ih (n / 10) [Char.ofNat (48 + n % 10)], List.append_assoc]
      rfl

theorem natDigitsAux_fuel :
    ∀ (n f1 f2 : Nat), n < f1 → n < f2 → natDigitsAux f1 n [] = natDigitsAux f2 n [] := by
  intro n
  induction n using Nat.strong_induction_on with
  | _ n ih =>
    intro f1 f2 h1 h2
    obtain ⟨g1, rfl⟩ : ∃ g, f1 = g + 1 := ⟨f1 - 1, by omega⟩
    obtain ⟨g2, rfl⟩ : ∃ g, f2 = g + 1 := ⟨f2 - 1, by omega⟩
    rw [natDigitsAux, natDigitsAux]
    split
    · rfl
    · next h =>
      have hlt : n / 10 < n := Nat.div_lt_self (by omega) (by omega)
      rw [natDigitsAux_acc g1, natDigitsAux_acc g2,
        ih (n / 10) hlt g1 g2 (by omega) (by omega)]

theorem natDigits_unfold (n : Nat) :
    natDigits n =
      if n < 10 then [Char.ofNat (48 + n)]
      else natDigits (n / 10) ++ [Char.ofNat (48 + n % 10)] := by
  rw [natDigits, natDigitsAux]
  split
  · rfl
  · next h =>
    have hlt : n / 10 < n := Nat.div_lt_self (by omega) (by omega)
    rw [natDigitsAux_acc, natDigits, natDigitsAux_fuel (n / 10) n (n / 10 + 1) hlt (by omega)]



theorem char_ne_of_toNat {c d : Char} (h : c.toNat ≠ d.toNat) : c ≠ d :=
  fun he => h (he ▸ rfl)

theorem isDigit_toNat {c : Char} (h : c.isDigit) : 48 ≤ c.toNat ∧ c.toNat ≤ 57 := by
  simp [Char.isDigit] at h
  exact ⟨h.1, h.2⟩

theorem natDigits_head (n : Nat) : ∃ c t, natDigits n = c :: t ∧ c.isDigit := by
  rw [natDigits_unfold]
  split
  · next h =>
    refine ⟨Char.ofNat (48 + n), [], rfl, ?_⟩
    interval_cases n <;> decide
  · next h =>
    obtain ⟨c, t, hct, hd⟩ := natDigits_head (n / 10)
    exact ⟨c, t ++ [Char.ofNat (48 + n % 10)], by rw [hct]; rfl, hd⟩
  decreasing_by exact Nat.div_lt_self (by omega) (by omega)

theorem readDigits_append (n : Nat) :
    ∀ (acc : Nat) (rest : List Char),
      readDigits acc (natDigits n ++ rest) =
        readDigits (acc * 10 ^ (natDigits n).length + n) rest := by
  induction n using Nat.strong_induction_on with
  | _ n ih =>
    intro acc rest
    rw [natDigits_unfold]
    split
    · next h =>
      have hd : (Char.ofNat (48 + n)).isDigit = true := by interval_cases n <;> decide
      have htn : (Char.ofNat (48 + n)).toNat - 48 = n := by interval_cases n <;> decide
      rw [List.cons_append, List.nil_append, readDigits, if_pos hd, htn]
      simp [pow_succ]
    · next h =>
      have hlt : n / 10 < n := Nat.div_lt_self (by omega) (by omega)
      have hdig : (Char.ofNat (48 + n % 10)).isDigit = true := by
        have hm : n % 10 < 10 := Nat.mod_lt _ (by omega)
        interval_cases hmc : n % 10 <;> decide
      have htn : (Char.ofNat (48 + n % 10)).toNat = 48 + n % 10 :=
        toNat_ofNat_valid (Or.inl (by omega))
      rw [List.append_assoc, ih (n / 10) hlt, List.cons_append, List.nil_append,
        readDigits, if_pos hdig, htn]
      rw [List.length_append, List.length_cons, List.length_nil]
      have e1 : (acc * 10 ^ (natDigits (n / 10)).length + n / 10) * 10 + (48 + n % 10 - 48) =
          acc * 10 ^ (natDigits (n / 10)).length * 10 + (n / 10 * 10 + n % 10) := by
        omega
      have e2 : n / 10 * 10 + n % 10 = n := by omega
      have e3 : 10 ^ ((natDigits (n / 10)).length + (0 + 1)) =
          10 ^ (natDigits (n / 10)).length * 10 := by
        rw [pow_succ]
      rw [e1, e2, e3, Nat.mul_assoc]

theorem readDigits_stop (acc : Nat) (rest : List Char) (h : digitSafe rest) :
    readDigits acc rest = (acc, rest) := by
  cases rest with
  | nil => rfl
  | cons c r =>
    have hc : c.isDigit = false := h
    rw [readDigits, if_neg (by simp [hc])]

/-! whitespace plumbing -/

theorem skipWs_not_ws {c : Char} (h : isWsChar c = false) (r : List Char) :
    skipWs (c :: r) = c :: r := by
  rw [skipWs, if_neg (by simp [h])]

theorem skipWs_ws {c : Char} (h : isWsChar c = true) (r : List Char) :
    skipWs (c :: r) = skipWs r := by
  rw [skipWs, if_pos (by simp [h])]

theorem skipWs_spaces (k : Nat) (s : List Char) : skipWs (spaces k ++ s) = skipWs s := by
  induction k with
  | zero => rfl
  | succ k ih =>
    rw [spaces, List.replicate_succ, List.cons_append, skipWs_ws (by decide)]
    exact ih

theorem skipWs_nl_spaces (k : Nat) (s : List Char) :
    skipWs ('\n' :: (spaces k ++ s)) = skipWs s := by
  rw [skipWs_ws (by decide), skipWs_spaces]

theorem isWsChar_digit {c : Char} (h : c.isDigit = true) : isWsChar c = false := by
  have := isDigit_toNat h
  have e1 : (' ' : Char).toNat = 32 := rfl
  have e2 : ('\n' : Char).toNat = 10 := rfl
  have e3 : ('\t' : Char).toNat = 9 := rfl
  have e4 : ('\r' : Char).toNat = 13 := rfl
  simp only [isWsChar, Bool.or_eq_false_iff]
  refine ⟨⟨⟨?_, ?_⟩, ?_⟩, ?_⟩ <;> exact decide_eq_false (char_ne_of_toNat (by omega))

/-! head-character facts for the printer -/

theorem digit_facts {c : Char} (h : c.isDigit = true) :
    isWsChar c = false ∧ c ≠ ']' ∧ c ≠ rbrace ∧ c ≠ 'n' ∧ c ≠ 't' ∧ c ≠ 'f' ∧
      c ≠ '"' ∧ c ≠ '-' ∧ c ≠ '[' ∧ c ≠ lbrace := by
  have hb := isDigit_toNat h
  have e1 : (']' : Char).toNat = 93 := rfl
  have e2 : rbrace.toNat = 125 := by decide
  have e3 : ('n' : Char).toNat = 110 := rfl
  have e4 : ('t' : Char).toNat = 116 := rfl
  have e5 : ('f' : Char).toNat = 102 := rfl
  have e6 : ('"' : Char).toNat = 34 := rfl
  have e7 : ('-' : Char).toNat = 45 := rfl
  have e8 : ('[' : Char).toNat = 91 := rfl
  have e9 : lbrace.toNat = 123 := by decide
  exact ⟨isWsChar_digit h, char_ne_of_toNat (by omega), char_ne_of_toNat (by omega),
    char_ne_of_toNat (by omega), char_ne_of_toNat (by omega), char_ne_of_toNat (by omega),
    char_ne_of_toNat (by omega), char_ne_of_toNat (by omega), char_ne_of_toNat (by omega),
    char_ne_of_toNat (by omega)⟩

theorem dumpVal_head (d : Nat) (j : Json) :
    ∃ c t, dumpVal d j = c :: t ∧ isWsChar c = false ∧ c ≠ ']' ∧ c ≠ rbrace := by
  cases j with
  | num n =>
    rw [show dumpVal d (.num n) = intDigits n from rfl, intDigits]
    split
    · refine ⟨'-', natDigits (-n).toNat, rfl, ?_, ?_, ?_⟩ <;> decide
    · obtain ⟨c, t, hct, hdig⟩ := natDigits_head n.toNat
      obtain ⟨g1, g2, g3, -⟩ := digit_facts hdig
      exact ⟨c, t, hct, g1, g2, g3⟩
  | null =>
    refine ⟨'n', _, rfl, ?_, ?_, ?_⟩ <;> decide
  | bool b =>
    rcases b with _ | _
    · refine ⟨'f', _, rfl, ?_, ?_, ?_⟩ <;> decide
    · refine ⟨'t', _, rfl, ?_, ?_, ?_⟩ <;> decide
  | str s =>
    refine ⟨'"', _, rfl, ?_, ?_, ?_⟩ <;> decide
  | arr xs =>
    rcases xs with _ | ⟨x, xs⟩
    · refine ⟨'[', _, rfl, ?_, ?_, ?_⟩ <;> decide
    · refine ⟨'[', _, rfl, ?_, ?_, ?_⟩ <;> decide
  | obj ms =>
    rcases ms with _ | ⟨m, ms⟩
    · refine ⟨lbrace, _, rfl, ?_, ?_, ?_⟩ <;> decide
    · refine ⟨lbrace, _, rfl, ?_, ?_, ?_⟩ <;> decide

theorem string_mk_data (s : String) : String.mk s.data = s := by
  cases s
  rfl

theorem readVal_leaf_null (fuel d : Nat) (rest : List Char) :
    readVal (fuel + 1) (dumpVal d .null ++ rest) = some (.null, rest) := by
  have hd : dumpVal d .null = ['n', 'u', 'l', 'l'] := rfl
  rw [hd, List.cons_append, List.cons_append, List.cons_append, List.cons_append,
    List.nil_append]
  rw [readVal, skipWs_not_ws (by decide)]
  dsimp only
  rw [if_pos rfl]
  simp [List.take, List.drop]

theorem readVal_leaf_true (fuel d : Nat) (rest : List Char) :
    readVal (fuel + 1) (dumpVal d (.bool true) ++ rest) = some (.bool true, rest) := by
  have hd : dumpVal d (.bool true) = ['t', 'r', 'u', 'e'] := rfl
  rw [hd, List.cons_append, List.cons_append, List.cons_append, List.cons_append,
    List.nil_append]
  rw [readVal, skipWs_not_ws (by decide)]
  dsimp only
  rw [if_neg (by decide), if_pos rfl]
  simp [List.take, List.drop]

theorem readVal_leaf_false (fuel d : Nat) (rest : List Char) :
    readVal (fuel + 1) (dumpVal d (.bool false) ++ rest) = some (.bool false, rest) := by
  have hd : dumpVal d (.bool false) = ['f', 'a', 'l', 's', 'e'] := rfl
  rw [hd, List.cons_append, List.cons_append, List.cons_append, List.cons_append,
    List.cons_append, List.nil_append]
  rw [readVal, skipWs_not_ws (by decide)]
  dsimp only
  rw [if_neg (by decide), if_neg (by decide), if_pos rfl]
  simp [List.take, List.drop]

theorem readVal_leaf_str (fuel d : Nat) (s : String) (rest : List Char) :
    readVal (fuel + 1) (dumpVal d (.str s) ++ rest) = some (.str s, rest) := by
  have hd : dumpVal d (.str s) = '"' :: (escapeChars s.data ++ ['"']) := rfl
  rw [hd, List.cons_append, List.append_assoc, List.cons_append, List.nil_append]
  rw [readVal, skipWs_not_ws (by decide)]
  dsimp only
  rw [if_neg (by decide), if_neg (by decide), if_neg (by decide), if_pos rfl]
  have hlen : s.data.length < (escapeChars s.data ++ '"' :: rest).length + 1 := by
    rw [List.length_append]
    have := length_le_escapeChars s.data
    omega
  rw [readStringBody_escapeChars s.data _ hlen rest]

theorem readVal_leaf_num (fuel d : Nat) (n : Int) (rest : List Char) (hrest : digitSafe rest) :
    readVal (fuel + 1) (dumpVal d (.num n) ++ rest) = some (.num n, rest) := by
  have hd : dumpVal d (.num n) = intDigits n := rfl
  rw [hd, intDigits]
  by_cases hneg : n < 0
  · rw [if_pos hneg]
    obtain ⟨c, t, hct, hdig⟩ := natDigits_head (-n).toNat
    obtain ⟨f1, _, _, f4, f5, f6, f7, _, _, _⟩ := digit_facts hdig
    rw [List.cons_append, readVal, skipWs_not_ws (by decide)]
    dsimp only
    rw [if_neg (by decide), if_neg (by decide), if_neg (by decide), if_neg (by decide),
      if_pos rfl, hct, List.cons_append]
    dsimp only
    rw [if_pos hdig]
    have harg : c :: (t ++ rest) = natDigits (-n).toNat ++ rest := by
      rw [hct, List.cons_append]
    rw [harg, readDigits_append, Nat.zero_mul, Nat.zero_add, readDigits_stop _ _ hrest]
    dsimp only
    have hval : (((-n).toNat : Int)) = -n := by omega
    rw [hval, neg_neg]
  · rw [if_neg hneg]
    obtain ⟨c, t, hct, hdig⟩ := natDigits_head n.toNat
    obtain ⟨f1, _, _, f4, f5, f6, f7, f8, f9, f10⟩ := digit_facts hdig
    rw [hct, List.cons_append, readVal, skipWs_not_ws f1]
    dsimp only
    rw [if_neg f4, if_neg f5, if_neg f6, if_neg f7, if_neg f8, if_neg f9, if_neg f10,
      if_pos hdig]
    have harg : c :: (t ++ rest) = natDigits n.toNat ++ rest := by
      rw [hct, List.cons_append]
    rw [harg, readDigits_append, Nat.zero_mul, Nat.zero_add, readDigits_stop _ _ hrest]
    dsimp only
    have hval : ((n.toNat : Int)) = n := by omega
    rw [hval]



theorem jsize_pos (j : Json) : 1 ≤ jsize j := by
  cases j <;> simp [jsize]

theorem readVal_leaf_arrnil (fuel d : Nat) (rest : List Char) :
    readVal (fuel + 1) (dumpVal d (.arr []) ++ rest) = some (.arr [], rest) := by
  have hd : dumpVal d (.arr []) = ['[', ']'] := rfl
  rw [hd, List.cons_append, List.cons_append, List.nil_append]
  rw [readVal, skipWs_not_ws (by decide)]
  dsimp only
  rw [if_neg (by decide), if_neg (by decide), if_neg (by decide), if_neg (by decide),
    if_neg (by decide), if_pos rfl, skipWs_not_ws (by decide)]
  dsimp only
  rw [if_pos rfl]

theorem readVal_leaf_objnil (fuel d : Nat) (rest : List Char) :
    readVal (fuel + 1) (dumpVal d (.obj []) ++ rest) = some (.obj [], rest) := by
  have hd : dumpVal d (.obj []) = [lbrace, rbrace] := rfl
  rw [hd, List.cons_append, List.cons_append, List.nil_append]
  rw [readVal, skipWs_not_ws (by decide)]
  dsimp only
  rw [if_neg (by decide), if_neg (by decide), if_neg (by decide), if_neg (by decide),
    if_neg (by decide), if_neg (by decide), if_pos rfl, skipWs_not_ws (by decide)]
  dsimp only
  rw [if_pos rfl]

theorem readVal_congr (fuel : Nat) {s1 s2 : List Char} (h : skipWs s1 = skipWs s2) :
    readVal fuel s1 = readVal fuel s2 := by
  cases fuel with
  | zero => rfl
  | succ f => rw [readVal, readVal, h]

theorem readItems_congr (fuel : Nat) {s1 s2 : List Char} (h : skipWs s1 = skipWs s2) :
    readItems fuel s1 = readItems fuel s2 := by
  cases fuel with
  | zero => rfl
  | succ f => rw [readItems, readItems, readVal_congr f h]

theorem readMembers_congr (fuel : Nat) {s1 s2 : List Char} (h : skipWs s1 = skipWs s2) :
    readMembers fuel s1 = readMembers fuel s2 := by
  cases fuel with
  | zero => rfl
  | succ f => rw [readMembers, readMembers, h]

theorem digitSafe_items (d e : Nat) (xs : List Json) (rest : List Char) :
    digitSafe (dumpItems d xs ++ '\n' :: (spaces e ++ ']' :: rest)) := by
  cases xs with
  | nil => show ('\n' : Char).isDigit = false; decide
  | cons x xs => show (',' : Char).isDigit = false; decide

theorem digitSafe_members (d e : Nat) (ms : List (String × Json)) (rest : List Char) :
    digitSafe (dumpMembers d ms ++ '\n' :: (spaces e ++ rbrace :: rest)) := by
  cases ms with
  | nil => show ('\n' : Char).isDigit = false; decide
  | cons m ms => show (',' : Char).isDigit = false; decide

theorem jsizeItems_pos (xs : List Json) : 1 ≤ jsizeItems xs := by
  cases xs with
  | nil => simp [jsizeItems]
  | cons x t => rw [jsizeItems]; omega

theorem jsizeMembers_pos (ms : List (String × Json)) : 1 ≤ jsizeMembers ms := by
  cases ms with
  | nil => simp [jsizeMembers]
  | cons m t => rw [jsizeMembers]; omega

mutual

theorem readVal_dumpVal (j : Json) (d : Nat) (rest : List Char) (fuel : Nat)
    (hf : jsize j ≤ fuel) (hrest : digitSafe rest) :
    readVal fuel (dumpVal d j ++ rest) = some (j, rest) := by
  obtain ⟨f, rfl⟩ : ∃ f, fuel = f + 1 := ⟨fuel - 1, by have := jsize_pos j; omega⟩
  cases j with
  | null => exact readVal_leaf_null f d rest
  | bool b =>
    cases b with
    | true => exact readVal_leaf_true f d rest
    | false => exact readVal_leaf_false f d rest
  | num n => exact readVal_leaf_num f d n rest hrest
  | str s => exact readVal_leaf_str f d s rest
  | arr xs =>
    cases xs with
    | nil => exact readVal_leaf_arrnil f d rest
    | cons x xs =>
      have hsz : jsizeItems (x :: xs) ≤ f := by rw [jsize] at hf; omega
      have hd1 : dumpVal d (.arr (x :: xs)) ++ rest =
          '[' :: '\n' :: (spaces (2 * (d + 1)) ++
            (dumpVal (d + 1) x ++ (dumpItems (d + 1) xs ++
              '\n' :: (spaces (2 * d) ++ (']' :: rest))))) := by
        show ('[' :: '\n' :: (spaces (2 * (d + 1)) ++ dumpVal (d + 1) x ++
          dumpItems (d + 1) xs ++ '\n' :: (spaces (2 * d) ++ [']']))) ++ rest = _
        simp [List.append_assoc]
      rw [hd1, readVal, skipWs_not_ws (by decide)]
      dsimp only
      rw [if_neg (by decide), if_neg (by decide), if_neg (by decide), if_neg (by decide),
        if_neg (by decide), if_pos rfl, skipWs_nl_spaces]
      obtain ⟨c, t, hct, hws, hbr, hrb⟩ := dumpVal_head (d + 1) x
      rw [hct, List.cons_append, skipWs_not_ws hws]
      dsimp only
      rw [if_neg hbr]
      have harg : c :: (t ++ (dumpItems (d + 1) xs ++ '\n' :: (spaces (2 * d) ++ (']' :: rest)))) =
          dumpVal (d + 1) x ++ (dumpItems (d + 1) xs ++ '\n' :: (spaces (2 * d) ++ (']' :: rest))) := by
        rw [hct, List.cons_append]
      rw [harg, readItems_dumps x xs (d + 1) (2 * d) rest f hsz hrest]
  | obj ms =>
    cases ms with
    | nil => exact readVal_leaf_objnil f d rest
    | cons m ms =>
      obtain ⟨k, v⟩ := m
      have hsz : jsizeMembers ((k, v) :: ms) ≤ f := by rw [jsize] at hf; omega
      have hd1 : dumpVal d (.obj ((k, v) :: ms)) ++ rest =
          lbrace :: '\n' :: (spaces (2 * (d + 1)) ++
            (dumpMember (d + 1) (k, v) ++ (dumpMembers (d + 1) ms ++
              '\n' :: (spaces (2 * d) ++ (rbrace :: rest))))) := by
        show (lbrace :: '\n' :: (spaces (2 * (d + 1)) ++ dumpMember (d + 1) (k, v) ++
          dumpMembers (d + 1) ms ++ '\n' :: (spaces (2 * d) ++ [rbrace]))) ++ rest = _
        simp [List.append_assoc]
      rw [hd1, readVal, skipWs_not_ws (by decide)]
      dsimp only
      rw [if_neg (by decide), if_neg (by decide), if_neg (by decide), if_neg (by decide),
        if_neg (by decide), if_neg (by decide), if_pos rfl, skipWs_nl_spaces]
      have hmem : dumpMember (d + 1) (k, v) ++ (dumpMembers (d + 1) ms ++
          '\n' :: (spaces (2 * d) ++ (rbrace :: rest))) =
          '"' :: (escapeChars k.data ++ ('"' :: (':' :: ' ' :: (dumpVal (d + 1) v ++
            (dumpMembers (d + 1) ms ++ '\n' :: (spaces (2 * d) ++ (rbrace :: rest))))))) := by
        show (dumpStr k ++ ':' :: ' ' :: dumpVal (d + 1) v) ++ _ = _
        rw [dumpStr]
        simp [List.append_assoc]
      rw [hmem, skipWs_not_ws (by decide)]
      dsimp only
      rw [if_neg (by decide)]
      rw [← hmem, readMembers_dumps k v ms (d + 1) (2 * d) rest f hsz hrest]
termination_by fuel
decreasing_by
  all_goals simp_wf
  all_goals omega

theorem readItems_dumps (x : Json) (xs : List Json) (d e : Nat) (rest : List Char) (fuel : Nat)
    (hf : jsizeItems (x :: xs) ≤ fuel) (hrest : digitSafe rest) :
    readItems fuel (dumpVal d x ++ (dumpItems d xs ++ '\n' :: (spaces e ++ (']' :: rest)))) =
      some (x :: xs, rest) := by
  obtain ⟨f, rfl⟩ : ∃ f, fuel = f + 1 := ⟨fuel - 1, by
    have := jsize_pos x
    have := jsizeItems_pos xs
    rw [jsizeItems] at hf
    omega⟩
  have hx : jsize x ≤ f := by
    have := jsizeItems_pos xs
    rw [jsizeItems] at hf
    omega
  rw [readItems, readVal_dumpVal x d _ f hx (digitSafe_items d e xs rest)]
  dsimp only
  cases xs with
  | nil =>
    rw [dumpItems, List.nil_append, skipWs_nl_spaces, skipWs_not_ws (by decide)]
    dsimp only
    rw [if_neg (by decide), if_pos rfl]
  | cons x2 xs2 =>
    have hsz2 : jsizeItems (x2 :: xs2) ≤ f := by
      have := jsize_pos x
      rw [jsizeItems] at hf
      omega
    rw [dumpItems, List.cons_append, List.cons_append, skipWs_not_ws (by decide)]
    dsimp only
    rw [if_pos rfl]
    have hskip : skipWs ('\n' :: ((spaces (2 * d) ++ dumpVal d x2 ++ dumpItems d xs2) ++
        '\n' :: (spaces e ++ (']' :: rest)))) =
        skipWs (dumpVal d x2 ++ (dumpItems d xs2 ++ '\n' :: (spaces e ++ (']' :: rest)))) := by
      rw [skipWs_ws (by decide), List.append_assoc, List.append_assoc, skipWs_spaces]
    rw [readItems_congr f hskip, readItems_dumps x2 xs2 d e rest f hsz2 hrest]
termination_by fuel
decreasing_by
  all_goals simp_wf
  all_goals omega

theorem readMembers_dumps (k : String) (v : Json) (ms : List (String × Json)) (d e : Nat)
    (rest : List Char) (fuel : Nat)
    (hf : jsizeMembers ((k, v) :: ms) ≤ fuel) (hrest : digitSafe rest) :
    readMembers fuel (dumpMember d (k, v) ++ (dumpMembers d ms ++
      '\n' :: (spaces e ++ (rbrace :: rest)))) = some ((k, v) :: ms, rest) := by
  obtain ⟨f, rfl⟩ : ∃ f, fuel = f + 1 := ⟨fuel - 1, by
    have h2 := jsize_pos v
    have h3 := jsizeMembers_pos ms
    rw [jsizeMembers] at hf
    replace hf : 1 + jsize v + jsizeMembers ms ≤ fuel := hf
    omega⟩
  have hv : jsize v ≤ f := by
    have h3 := jsizeMembers_pos ms
    rw [jsizeMembers] at hf
    replace hf : 1 + jsize v + jsizeMembers ms ≤ f + 1 := hf
    omega
  have hmem : dumpMember d (k, v) ++ (dumpMembers d ms ++
      '\n' :: (spaces e ++ (rbrace :: rest))) =
      '"' :: (escapeChars k.data ++ ('"' :: (':' :: ' ' :: (dumpVal d v ++
        (dumpMembers d ms ++ '\n' :: (spaces e ++ (rbrace :: rest))))))) := by
    show (dumpStr k ++ ':' :: ' ' :: dumpVal d v) ++ _ = _
    rw [dumpStr]
    simp [List.append_assoc]
  rw [hmem, readMembers, skipWs_not_ws (by decide)]
  dsimp only
  rw [if_pos rfl]
  have hlen : k.data.length <
      (escapeChars k.data ++ '"' :: (':' :: ' ' :: (dumpVal d v ++
        (dumpMembers d ms ++ '\n' :: (spaces e ++ (rbrace :: rest)))))).length + 1 := by
    rw [List.length_append]
    have := length_le_escapeChars k.data
    omega
  rw [readStringBody_escapeChars k.data _ hlen]
  dsimp only
  rw [skipWs_not_ws (by decide)]
  dsimp only
  rw [if_pos rfl]
  have hval : readVal f (' ' :: (dumpVal d v ++ (dumpMembers d ms ++
      '\n' :: (spaces e ++ (rbrace :: rest))))) = some (v, dumpMembers d ms ++
      '\n' :: (spaces e ++ (rbrace :: rest))) := by
    rw [readVal_congr f (skipWs_ws (by decide) _),
      readVal_dumpVal v d _ f hv (digitSafe_members d e ms rest)]
  rw [hval]
  dsimp only
  cases ms with
  | nil =>
    rw [dumpMembers, List.nil_append, skipWs_nl_spaces, skipWs_not_ws (by decide)]
    dsimp only
    rw [if_neg (by decide), if_pos rfl]
  | cons m2 ms2 =>
    obtain ⟨k2, v2⟩ := m2
    have hsz2 : jsizeMembers ((k2, v2) :: ms2) ≤ f := by
      have h2 := jsize_pos v
      rw [jsizeMembers] at hf
      replace hf : 1 + jsize v + jsizeMembers ((k2, v2) :: ms2) ≤ f + 1 := hf
      omega
    rw [dumpMembers, List.cons_append, List.cons_append, skipWs_not_ws (by decide)]
    dsimp only
    rw [if_pos rfl]
    have hskip : skipWs ('\n' :: ((spaces (2 * d) ++ dumpMember d (k2, v2) ++ dumpMembers d ms2) ++
        '\n' :: (spaces e ++ (rbrace :: rest)))) =
        skipWs (dumpMember d (k2, v2) ++ (dumpMembers d ms2 ++
          '\n' :: (spaces e ++ (rbrace :: rest)))) := by
      rw [skipWs_ws (by decide), List.append_assoc, List.append_assoc, skipWs_spaces]
    rw [readMembers_congr f hskip, readMembers_dumps k2 v2 ms2 d e rest f hsz2 hrest]
termination_by fuel
decreasing_by
  all_goals simp_wf
  all_goals omega

end

mutual

theorem jsize_le_dumpVal (d : Nat) (j : Json) : jsize j ≤ (dumpVal d j).length + 1 := by
  cases j with
  | null => simp [jsize]
  | bool b => simp [jsize]
  | num n => simp [jsize]
  | str s => simp [jsize]
  | arr xs =>
    cases xs with
    | nil => simp [jsize, jsizeItems, dumpVal]
    | cons x xs =>
      have h1 := jsize_le_dumpVal (d + 1) x
      have h2 := jsizeItems_le_dumpItems (d + 1) xs
      rw [jsize, jsizeItems, dumpVal]
      simp only [List.length_cons, List.length_append, spaces, List.length_replicate,
        List.length_singleton]
      omega
  | obj ms =>
    cases ms with
    | nil => simp [jsize, jsizeMembers, dumpVal]
    | cons m ms =>
      have h1 := jsize_le_dumpVal (d + 1) m.2
      have h2 := jsizeMembers_le_dumpMembers (d + 1) ms
      rw [jsize, jsizeMembers, dumpVal]
      have hm : (dumpMember (d + 1) m).length = (dumpStr m.1).length + 2 + (dumpVal (d + 1) m.2).length := by
        show (dumpMember (d + 1) (m.1, m.2)).length = _
        rw [dumpMember]
        simp [List.length_append]
        omega
      simp only [List.length_cons, List.length_append, spaces, List.length_replicate,
        List.length_singleton]
      omega

theorem jsizeItems_le_dumpItems (d : Nat) (xs : List Json) :
    jsizeItems xs ≤ (dumpItems d xs).length + 2 := by
  cases xs with
  | nil => simp [jsizeItems, dumpItems]
  | cons x xs =>
    have h1 := jsize_le_dumpVal d x
    have h2 := jsizeItems_le_dumpItems d xs
    rw [jsizeItems, dumpItems]
    simp only [List.length_cons, List.length_append, spaces, List.length_replicate]
    omega

theorem jsizeMembers_le_dumpMembers (d : Nat) (ms : List (String × Json)) :
    jsizeMembers ms ≤ (dumpMembers d ms).length + 2 := by
  cases ms with
  | nil => simp [jsizeMembers, dumpMembers]
  | cons m ms =>
    have h1 := jsize_le_dumpVal d m.2
    have h2 := jsizeMembers_le_dumpMembers d ms
    rw [jsizeMembers, dumpMembers]
    have hm : (dumpMember d m).length = (dumpStr m.1).length + 2 + (dumpVal d m.2).length := by
      show (dumpMember d (m.1, m.2)).length = _
      rw [dumpMember]
      simp [List.length_append]
      omega
    simp only [List.length_cons, List.length_append, spaces, List.length_replicate]
    omega

end

theorem parseJson_jsonDumps (j : Json) : parseJson (jsonDumps j) = some j := by
  have hfuel : jsize j ≤ (dumpVal 0 j).length + 1 := jsize_le_dumpVal 0 j
  have h := readVal_dumpVal j 0 [] ((dumpVal 0 j).length + 1) hfuel trivial
  rw [List.append_nil] at h
  rw [parseJson, show (jsonDumps j).data = dumpVal 0 j from rfl,
    show (jsonDumps j).length = (dumpVal 0 j).length from rfl, h]
  rfl

/-! ## Claim theorems -/

theorem pyDictInsert_mem {α : Type} {m : List (String × α)} {k k1 : String} {v v1 : α}
    (h : (k1, v1) ∈ pyDictInsert m k v) : (k1, v1) ∈ m ∨ (k1 = k ∧ v1 = v) := by
  induction m with
  | nil =>
    rw [pyDictInsert] at h
    rcases List.mem_singleton.mp h with h1
    exact Or.inr ⟨congrArg Prod.fst h1, congrArg Prod.snd h1⟩
  | cons p rest ih =>
    obtain ⟨k2, v2⟩ := p
    rw [pyDictInsert] at h
    split at h
    · rcases List.mem_cons.mp h with h1 | h1
      · exact Or.inr ⟨congrArg Prod.fst h1, congrArg Prod.snd h1⟩
      · exact Or.inl (List.mem_cons_of_mem _ h1)
    · rcases List.mem_cons.mp h with h1 | h1
      · exact Or.inl (h1 ▸ List.mem_cons_self _ _)
      · rcases ih h1 with h2 | h2
        · exact Or.inl (List.mem_cons_of_mem _ h2)
        · exact Or.inr h2

theorem get_type_info_aux_mem (names : List String) :
    ∀ (ts : List SchemaTypeDef) (acc : List (String × TypeSummary)) (k : String) (s : TypeSummary),
      (k, s) ∈ ts.foldl
        (fun acc t =>
          if t.name ∈ names then pyDictInsert acc t.name (summarizeType t) else acc) acc →
      (k, s) ∈ acc ∨ (k ∈ names ∧ ∃ t, t ∈ ts ∧ t.name = k ∧ s = summarizeType t) := by
  intro ts
  induction ts with
  | nil => intro acc k s h; exact Or.inl h
  | cons t ts ih =>
    intro acc k s h
    rw [List.foldl_cons] at h
    rcases ih _ k s h with h1 | ⟨h1, t2, ht2, hn2, hs2⟩
    · by_cases hmem : t.name ∈ names
      · rw [if_pos hmem] at h1
        rcases pyDictInsert_mem h1 with h2 | ⟨h2, h3⟩
        · exact Or.inl h2
        · exact Or.inr ⟨h2 ▸ hmem, t, List.mem_cons_self _ _, h2.symm, h3⟩
      · rw [if_neg hmem] at h1
        exact Or.inl h1
    · exact Or.inr ⟨h1, t2, List.mem_cons_of_mem _ ht2, hn2, hs2⟩

theorem mem_get_type_info {names : List String} {ts : List SchemaTypeDef} {k : String}
    {s : TypeSummary} (h : (k, s) ∈ GraphQLAPIWrapper.get_type_info names ts) :
    k ∈ names ∧ ∃ t, t ∈ ts ∧ t.name = k ∧ s = summarizeType t := by
  rcases get_type_info_aux_mem names ts [] k s h with h1 | h1
  · exact absurd h1 (List.not_mem_nil _)
  · exact h1

theorem get_type_info_eq_nil {names : List String} {ts : List SchemaTypeDef}
    (h : ∀ t ∈ ts, t.name ∉ names) : GraphQLAPIWrapper.get_type_info names ts = [] := by
  rw [GraphQLAPIWrapper.get_type_info]
  induction ts with
  | nil => rfl
  | cons t ts ih =>
    rw [List.foldl_cons, if_neg (h t (List.mem_cons_self _ _))]
    exact ih fun t2 ht2 => h t2 (List.mem_cons_of_mem _ ht2)





theorem resolveFieldType_eq_amended (t : FieldTypeRef) :
    resolveFieldType t = amendedFieldType t := by
  obtain ⟨nm, kd, ot⟩ := t
  cases nm with
  | none => rfl
  | some s =>
    by_cases hs : s = ""
    · subst hs
      cases ot <;> rfl
    · rw [resolveFieldType, amendedFieldType]
      dsimp only
      rw [if_pos (by simp [pyTruthyStr, hs]), if_neg hs]



/-- C1 (amended): `QueryGraphQLTool._run` re-serializes the already
serialized output of `GraphQLAPIWrapper.run`, so parsing the returned text
once yields a JSON string whose content is the wrapper's pretty-printed
(2-space indent) JSON text, and parsing that text reproduces the original
structured result: the round-trip takes two parses, not one. -/
theorem C1_query_adapter_double_serialization (r : Json) :
    parseJson (QueryGraphQLTool.run r) = some (.str (GraphQLAPIWrapper.run r)) ∧
    parseJson (GraphQLAPIWrapper.run r) = some r := by
  constructor
  · exact parseJson_jsonDumps (.str (GraphQLAPIWrapper.run r))
  · exact parseJson_jsonDumps r

/-- C1 counterexample: on the structured result `{"a": 1}` the Query
adapter's output parses (once) to a JSON *string*, not to the original
object, so the claimed one-parse round-trip fails. -/
theorem C1_counterexample :
    parseJson (QueryGraphQLTool.run c1_input) = some (.str "\x7b\n  \"a\": 1\n\x7d") ∧
    parseJson (QueryGraphQLTool.run c1_input) ≠ some c1_input := by
  have he : parseJson (QueryGraphQLTool.run c1_input) = some (.str "\x7b\n  \"a\": 1\n\x7d") := by
    rfl
  refine ⟨he, fun h => ?_⟩
  rw [he] at h
  simp [c1_input] at h

/-- C2 (amended): every entry `get_type_info` reports comes from a
server-returned type of that name, its fields are computed totally (no
exception), and each reported field type follows the amended rule
`amendedFieldType`: the direct name when present AND non-empty, else the
wrapped `ofType` name (one level only), else null. -/
theorem C2_field_type_resolution (names : List String) (ts : List SchemaTypeDef)
    (k : String) (s : TypeSummary)
    (hmem : (k, s) ∈ GraphQLAPIWrapper.get_type_info names ts) :
    ∃ t, t ∈ ts ∧ t.name = k ∧ s.kind = t.kind ∧
      s.fields =
        (match t.fields with
         | some fs => fs.map fun f => { name := f.name, type := amendedFieldType f.type }
         | none => []) := by
  obtain ⟨-, t, ht, hn, hs⟩ := mem_get_type_info hmem
  refine ⟨t, ht, hn, by rw [hs, summarizeType], ?_⟩
  rw [hs, summarizeType]
  cases t.fields with
  | none => rfl
  | some fs =>
    dsimp only
    exact List.map_congr_left fun f _ => by rw [resolveFieldType_eq_amended]





/-- C2 counterexample: for a field whose direct type name is present but
empty, the code reports the wrapped name `"String"`, while the claim's rule
(prefer the direct name whenever present) demands `""`. -/
theorem C2_counterexample :
    GraphQLAPIWrapper.get_type_info ["T"] c2_schema =
      [("T", { kind := "OBJECT", fields := [{ name := "f", type := some "String" }] })] ∧
    specPresenceFieldType c2_fieldtype = some "" ∧
    (some "String" : Option String) ≠ some "" := by
  refine ⟨rfl, rfl, by decide⟩

/-- Witness for C2 at a concrete schema. -/
theorem C2_witness :
    ∃ t, t ∈ c2_schema ∧ t.name = "T" ∧
      ("OBJECT" : String) = t.kind ∧
      ([{ name := "f", type := some "String" }] : List SummaryField) =
        (match t.fields with
         | some fs => fs.map fun f => { name := f.name, type := amendedFieldType f.type }
         | none => []) :=
  C2_field_type_resolution ["T"] c2_schema "T"
    { kind := "OBJECT", fields := [{ name := "f", type := some "String" }] }
    (by decide)

/-- C3: the asynchronous path of the Query, ListTypes and Schema adapters
always fails with a `NotImplementedError` and never returns a value,
whatever the input. -/
theorem C3_async_always_fails (input : String) :
    QueryGraphQLTool.arun input =
      .error (.notImplementedError "GraphQLAPIWrapper does not support async") ∧
    ListTablesGraphQLTool.arun input = .error (.notImplementedError NOT_IMPLEMENTED_ASYNC) ∧
    SchemaGraphQLTool.arun input = .error (.notImplementedError NOT_IMPLEMENTED_ASYNC) ∧
    ∀ out : String,
      QueryGraphQLTool.arun input ≠ .ok out ∧
      ListTablesGraphQLTool.arun input ≠ .ok out ∧
      SchemaGraphQLTool.arun input ≠ .ok out := by
  refine ⟨rfl, rfl, rfl, fun out => ⟨?_, ?_, ?_⟩⟩ <;> intro h <;>
    simp [QueryGraphQLTool.arun, ListTablesGraphQLTool.arun, SchemaGraphQLTool.arun] at h

/-- C4: supplying `QueryCheckerTool` with a prediction chain whose prompt
variables are not exactly `["query"]` makes the construction-time validator
fail with a `ValueError`; no model call is modelled anywhere in the
validator. -/
theorem C4_checker_rejects_bad_chain (chain : LLMChain)
    (h : chain.prompt.input_variables ≠ ["query"]) :
    QueryCheckerTool.checkLLMChain (some chain) =
      .error (.valueError LLM_CHAIN_VARS_ERROR) := by
  show (if chain.prompt.input_variables ≠ ["query"] then
      Except.error (PyError.valueError LLM_CHAIN_VARS_ERROR)
    else .ok chain) = _
  rw [if_pos h]

/-- Witness for C4: a chain templated on `question` is rejected. -/
theorem C4_witness :
    QueryCheckerTool.checkLLMChain
        (some { prompt := { template := QUERY_CHECKER, input_variables := ["question"] } }) =
      .error (.valueError LLM_CHAIN_VARS_ERROR) :=
  C4_checker_rejects_bad_chain _ (by decide)

/-- C5: a requested name that is not the name of any server-returned type is
silently omitted (it is never a key of the result), and when no
server-returned type is requested at all the result mapping is empty; no
error value exists in the signature. -/
theorem C5_unknown_names_silently_omitted (names : List String) (ts : List SchemaTypeDef) :
    (∀ n ∈ names, n ∉ ts.map SchemaTypeDef.name →
      ∀ s : TypeSummary, (n, s) ∉ GraphQLAPIWrapper.get_type_info names ts) ∧
    ((∀ t ∈ ts, t.name ∉ names) → GraphQLAPIWrapper.get_type_info names ts = []) := by
  constructor
  · intro n _ habs s hmem
    obtain ⟨-, t, ht, hn, -⟩ := mem_get_type_info hmem
    exact habs (List.mem_map.mpr ⟨t, ht, hn⟩)
  · exact get_type_info_eq_nil



/-- Witness for C5: requesting only the absent name `Missing` yields the
empty mapping, and `Missing` is not a key. -/
theorem C5_witness :
    (("Missing", ({ kind := "OBJECT", fields := [] } : TypeSummary)) ∉
      GraphQLAPIWrapper.get_type_info ["Missing"] c5_schema) ∧
    GraphQLAPIWrapper.get_type_info ["Missing"] c5_schema = [] :=
  ⟨(C5_unknown_names_silently_omitted ["Missing"] c5_schema).1 "Missing"
      (by decide) (by decide) _,
    (C5_unknown_names_silently_omitted ["Missing"] c5_schema).2 (by decide)⟩

/-- C6: `get_type_names` returns exactly one name per server-returned entry,
at the same index — the server order is preserved, nothing is deduplicated
and nothing (including `__`-prefixed introspection types) is filtered. -/
theorem C6_type_names_in_order (types : List TypeNameEntry) :
    (GraphQLAPIWrapper.get_type_names types).length = types.length ∧
    ∀ i : Nat, (GraphQLAPIWrapper.get_type_names types)[i]? =
      types[i]?.map TypeNameEntry.name := by
  constructor
  · simp [GraphQLAPIWrapper.get_type_names]
  · intro i
    simp [GraphQLAPIWrapper.get_type_names]

/-- C7: the Schema adapter splits its input on commas, strips each piece,
passes exactly those names to `get_type_info`, and pretty-prints the result
with 2-space indentation; on `" User , Post "` the looked-up names are
exactly `["User", "Post"]`. -/
theorem C7_schema_adapter_split_strip (input : String) (ts : List SchemaTypeDef) :
    SchemaGraphQLTool.run input ts =
      jsonDumps (encodeTypeInfo
        (GraphQLAPIWrapper.get_type_info (splitAndStrip input) ts)) ∧
    splitAndStrip " User , Post " = ["User", "Post"] ∧
    SchemaGraphQLTool.run " User , Post " ts =
      jsonDumps (encodeTypeInfo (GraphQLAPIWrapper.get_type_info ["User", "Post"] ts)) := by
  refine ⟨rfl, by decide, ?_⟩
  rw [SchemaGraphQLTool.run, show splitAndStrip " User , Post " = ["User", "Post"] by decide]

/-- C8: a requested type whose dictionary has no `fields` key gets a summary
with an empty field sequence, with no error. -/
theorem C8_missing_fields_key_empty (t : SchemaTypeDef) (h : t.fields = none)
    (names : List String) (hn : t.name ∈ names) :
    (summarizeType t).fields = [] ∧
    GraphQLAPIWrapper.get_type_info names [t] = [(t.name, { kind := t.kind, fields := [] })] := by
  constructor
  · rw [summarizeType, h]
  · rw [GraphQLAPIWrapper.get_type_info, List.foldl_cons, if_pos hn, List.foldl_nil,
      pyDictInsert, summarizeType, h]

/-- Witness for C8 at a concrete scalar-like entry. -/
theorem C8_witness :
    (summarizeType { name := "DateTime", kind := "SCALAR", fields := none }).fields = [] ∧
    GraphQLAPIWrapper.get_type_info ["DateTime"]
        [{ name := "DateTime", kind := "SCALAR", fields := none }] =
      [("DateTime", { kind := "SCALAR", fields := [] })] :=
  C8_missing_fields_key_empty _ rfl ["DateTime"] (by decide)

/-- C9: every key of the `get_type_info` result was requested and names a
server-returned type. -/
theorem C9_result_keys_requested_and_present (names : List String) (ts : List SchemaTypeDef)
    (k : String) (s : TypeSummary)
    (h : (k, s) ∈ GraphQLAPIWrapper.get_type_info names ts) :
    k ∈ names ∧ k ∈ ts.map SchemaTypeDef.name := by
  obtain ⟨h1, t, ht, hn, -⟩ := mem_get_type_info h
  exact ⟨h1, List.mem_map.mpr ⟨t, ht, hn⟩⟩

/-- Witness for C9. -/
theorem C9_witness :
    ("User" ∈ ["User"]) ∧ "User" ∈ c5_schema.map SchemaTypeDef.name :=
  C9_result_keys_requested_and_present ["User"] c5_schema "User"
    { kind := "OBJECT", fields := [] } (by decide)

/-- C10: a direct type name equal to the empty string is treated like an
absent name — the code's truthiness test makes `resolveFieldType` fall back
to the wrapped name (or null when `ofType` is absent), exactly as for
`name = none`. -/
theorem C10_empty_name_falls_back (t : FieldTypeRef) (h : t.name = some "") :
    resolveFieldType t =
      resolveFieldType { name := none, kind := t.kind, ofType := t.ofType } ∧
    resolveFieldType t =
      (match t.ofType with
       | some o => o.name
       | none => none) := by
  constructor
  · simp [resolveFieldType, h, pyTruthyStr]
  · rw [resolveFieldType, h, if_neg (by decide : ¬pyTruthyStr (some "") = true)]
    all_goals cases t.ofType <;> rfl

/-- Witness for C10. -/
theorem C10_witness :
    resolveFieldType c2_fieldtype =
      resolveFieldType { name := none, kind := c2_fieldtype.kind, ofType := c2_fieldtype.ofType } ∧
    resolveFieldType c2_fieldtype =
      (match c2_fieldtype.ofType with
       | some o => o.name
       | none => none) :=
  C10_empty_name_falls_back c2_fieldtype rfl
